import Mathlib

/- Verification development for the changelog-generation pipeline in
   .github/workflows/ai-log-work-py/changelog.py.  The Python source is
   shallowly embedded: pure fragments become Lean functions on `List Char`
   and `String`; external effects (git subprocess calls, the HTTP analysis
   service) are parameters supplied as oracles; Python exceptions that the
   source catches are modelled with `Option` and `Except`. -/

set_option maxRecDepth 4096

namespace Changelog

/- ------------------------------------------------------------------ -/
/- Python string primitives used by the source, modelled on `List Char`. -/
/- ------------------------------------------------------------------ -/

/-- Whitespace characters stripped by Python `str.strip()` (ASCII subset). -/
def pyIsWs (c : Char) : Bool :=
  c == ' ' || c == '\t' || c == '\n' || c == '\r' || c == (Char.ofNat 11) || c == (Char.ofNat 12)

/-- Python `str.strip()` on a character list. -/
def pyStripL (cs : List Char) : List Char :=
  ((cs.dropWhile pyIsWs).reverse.dropWhile pyIsWs).reverse

/-- Python `str.strip()`. -/
def pyStrip (s : String) : String :=
  String.mk (pyStripL s.data)

/-- Python `str.split(sep)` (single-character separator, no maxsplit). -/
def splitCh (sep : Char) : List Char → List (List Char)
  | [] => [[]]
  | c :: r =>
    if c == sep then [] :: splitCh sep r
    else
      match splitCh sep r with
      | g :: gs => (c :: g) :: gs
      | [] => [[c]]

/-- Joins groups back with `'|'` separators; inverse of `splitCh '|'`. -/
def joinPipes : List (List Char) → List Char
  | [] => []
  | [x] => x
  | x :: xs => x ++ '|' :: joinPipes xs

/-- Python `line.split('|', 2)`: at most two splits, the tail keeps its pipes. -/
def splitPipe2 (line : List Char) : List (List Char) :=
  match splitCh '|' line with
  | p0 :: p1 :: p2 :: rest => [p0, p1, joinPipes (p2 :: rest)]
  | parts => parts

/-- Is `pat` a prefix of `l`?  Used to model literal matching inside regexes. -/
def listPre : List Char → List Char → Bool
  | [], _ => true
  | _ :: _, [] => false
  | p :: ps, c :: cs => p == c && listPre ps cs

/-- Index of the leftmost occurrence of `pat` in `cs` (Python `re.search` on a
literal pattern). -/
def findSub (pat : List Char) : List Char → Option Nat
  | [] => if listPre pat [] then some 0 else none
  | c :: r => if listPre pat (c :: r) then some 0 else (findSub pat r).map (fun i => i + 1)

/-- Python `str.lower()` (ASCII model). -/
def lowerStr (s : String) : String :=
  String.mk (s.data.map Char.toLower)

/- ------------------------------------------------------------------ -/
/- Data model (dataclasses of the source). -/
/- ------------------------------------------------------------------ -/

/-- `CommitInfo` dataclass: defaults `category="OTHER"`, `importance=1`. -/
structure CommitInfo where
  hash : String
  message : String
  body : String := ""
  category : String := "OTHER"
  importance : Int := 1
deriving Repr, DecidableEq

/-- Batch statistics accumulator (`BatchStats`); the wall-clock
`start_time` field is not modelled. -/
structure BatchStats where
  total_releases : Nat := 0
  processed_releases : Nat := 0
  success_count : Nat := 0
  ai_success_count : Nat := 0
  skipped_count : Nat := 0
  error_count : Nat := 0
  total_commits : Nat := 0
deriving Repr, DecidableEq

/- ------------------------------------------------------------------ -/
/- Commit-line parsing (get_git_commits, lines 506-521). -/
/- ------------------------------------------------------------------ -/

/-- One iteration of the parse loop: `parts = line.split('|', 2)`; a record is
produced only when `len(parts) >= 2 and parts[0]`. -/
def parseCommitLine? (line : List Char) : Option CommitInfo :=
  match splitPipe2 line with
  | p0 :: p1 :: rest =>
    if p0.isEmpty then none
    else some { hash := String.mk p0
              , message := String.mk (pyStripL p1)
              , body := match rest with
                        | b :: _ => String.mk (pyStripL b)
                        | [] => "" }
  | _ => none

/-- The whole parse loop over `commits_raw.split('\n')`; the source appends to
an accumulator list, rendered here as `filterMap`. -/
def parseCommitLines (raw : String) : List CommitInfo :=
  (splitCh '\n' raw.data).filterMap parseCommitLine?

/- ------------------------------------------------------------------ -/
/- Tag filtering and previous-tag resolution (lines 432-466). -/
/- ------------------------------------------------------------------ -/

/-- Consume a maximal run of digits. -/
def dropDigits : List Char → List Char
  | [] => []
  | c :: r => if c.isDigit then dropDigits r else c :: r

/-- Matches `[0-9]+\.[0-9]+` at the head; anything may follow. -/
def matchNumDot (cs : List Char) : Bool :=
  match cs with
  | c :: r =>
    c.isDigit &&
      (match dropDigits r with
       | '.' :: r2 =>
         match r2 with
         | d :: _ => d.isDigit
         | [] => false
       | _ => false)
  | [] => false

/-- The version regex `^v?[0-9]+\.[0-9]+(\.[0-9]+)?.*$` of line 441; on a
newline-free tag this is equivalent to having a `v?digits.digits` head. -/
def isVersionTag (s : String) : Bool :=
  match s.data with
  | 'v' :: r => matchNumDot r
  | cs => matchNumDot cs

/-- `all_tags`: split on newlines, strip, drop empties (line 437). -/
def parseTagList (tagsRaw : String) : List String :=
  ((splitCh '\n' tagsRaw.data).map (fun l => String.mk (pyStripL l))).filter (fun t => t != "")

/-- `valid_tags` (line 444). -/
def validTagsOf (tagsRaw : String) : List String :=
  (parseTagList tagsRaw).filter isVersionTag

/-- `last_tag`: the entry after the target in the sorted valid tags, if both
exist (lines 447-456; `.index` raising `ValueError` becomes `none`). -/
def resolveLastTag (valid_tags : List String) (version : String) : Option String :=
  match valid_tags.findIdx? (fun t => t == version) with
  | some i => valid_tags[i + 1]?
  | none => none

/-- The revision-range argument passed to `git log` (lines 459-466). -/
def rangeArg (last_tag : Option String) (version : String) : String :=
  match last_tag with
  | none => version
  | some last => last ++ ".." ++ version

/-- The `commit_range` label (lines 459-466). -/
def rangeLabel (last_tag : Option String) (version : String) : String :=
  match last_tag with
  | none => "初始版本到" ++ version
  | some last => last ++ ".." ++ version

/- ------------------------------------------------------------------ -/
/- The git oracle and get_git_commits (lines 416-536). -/
/- ------------------------------------------------------------------ -/

/-- Oracle for the `subprocess.run(["git", ...], check=True)` calls; `.error`
models `CalledProcessError`. -/
structure GitEnv where
  tagsOut : Except Unit String
  logNoMerges : String → Except Unit String
  logWithMerges : String → Except Unit String
  logSingle : String → Except Unit String

/-- Last fallback (lines 491-503): `git log -1 <version>`; empty output yields
the explicit empty result. -/
def gitStage3 (env : GitEnv) (version : String) :
    Except Unit (List CommitInfo × String × Nat) :=
  match env.logSingle version with
  | .error e => .error e
  | .ok r3 =>
    if pyStrip r3 = "" then .ok ([], "空发布-" ++ version, 0)
    else .ok (parseCommitLines (pyStrip r3), "版本" ++ version ++ "的标签提交",
              (parseCommitLines (pyStrip r3)).length)

/-- First fallback (lines 484-489): retry the same range including merge
commits, only when a previous tag exists. -/
def gitStage2 (env : GitEnv) (version : String) (last_tag : Option String)
    (arg lbl : String) : Except Unit (List CommitInfo × String × Nat) :=
  match last_tag with
  | none => gitStage3 env version
  | some _ =>
    match env.logWithMerges arg with
    | .error e => .error e
    | .ok r2 =>
      if pyStrip r2 = "" then gitStage3 env version
      else .ok (parseCommitLines (pyStrip r2), lbl, (parseCommitLines (pyStrip r2)).length)

/-- Primary query (lines 459-482): `git log <range> --no-merges`. -/
def gitStage1 (env : GitEnv) (version : String) (last_tag : Option String) :
    Except Unit (List CommitInfo × String × Nat) :=
  match env.logNoMerges (rangeArg last_tag version) with
  | .error e => .error e
  | .ok r1 =>
    if pyStrip r1 = "" then
      gitStage2 env version last_tag (rangeArg last_tag version) (rangeLabel last_tag version)
    else .ok (parseCommitLines (pyStrip r1), rangeLabel last_tag version,
              (parseCommitLines (pyStrip r1)).length)

/-- The previous comparable tag, from the raw `git tag` output. -/
def lastTagFor (tagsRaw version : String) : Option String :=
  resolveLastTag (validTagsOf tagsRaw) version

/-- `get_git_commits` without its exception handlers. -/
def get_git_commits_core (env : GitEnv) (version : String) :
    Except Unit (List CommitInfo × String × Nat) :=
  match env.tagsOut with
  | .error e => .error e
  | .ok tagsRaw => gitStage1 env version (lastTagFor tagsRaw version)

/-- `get_git_commits` (lines 416-536): a `CalledProcessError` from any git call
is caught and converted into the error-labelled empty value (line 531-533). -/
def get_git_commits (env : GitEnv) (version : String) : List CommitInfo × String × Nat :=
  match get_git_commits_core env version with
  | .ok r => r
  | .error _ => ([], "Git错误-" ++ version, 0)

/- ------------------------------------------------------------------ -/
/- Commit classification (classify_commits, lines 538-590). -/
/- ------------------------------------------------------------------ -/

/-- The inner pattern loop (lines 563-570): first configured category whose
pattern matches, skipping the key OTHER; `m pat msg` abstracts
`re.match(pat, msg, re.IGNORECASE)`. -/
def matchFirst (m : String → String → Bool) :
    List (String × String) → String → Option String
  | [], _ => none
  | (cat, p) :: rest, msg =>
    if cat = "OTHER" then matchFirst m rest msg
    else if m p msg then some cat else matchFirst m rest msg

/-- The category a commit message is assigned (lines 563-575). -/
def assignCategory (m : String → String → Bool) (pats : List (String × String))
    (msg : String) : String :=
  (matchFirst m pats msg).getD ("OTHER")

/-- The in-place mutation `commit.category = category`. -/
def updateCommitCat (m : String → String → Bool) (pats : List (String × String))
    (c : CommitInfo) : CommitInfo :=
  { c with category := assignCategory m pats (pyStrip c.message) }

/-- `classified[k].append(v)`: `none` models the `KeyError` Python raises when
the key is absent from the dict. -/
def alAppend (k : String) (v : CommitInfo) :
    List (String × List CommitInfo) → Option (List (String × List CommitInfo))
  | [] => none
  | (k2, vs) :: rest =>
    if k2 = k then some ((k2, vs ++ [v]) :: rest)
    else (alAppend k v rest).map (fun r => (k2, vs) :: r)

/-- The per-commit loop of `classify_commits` (lines 558-579). -/
def classifyLoop (m : String → String → Bool) (pats : List (String × String)) :
    List CommitInfo → List (String × List CommitInfo) →
    Except String (List (String × List CommitInfo))
  | [], acc => .ok acc
  | c :: rest, acc =>
    match alAppend (assignCategory m pats (pyStrip c.message)) (updateCommitCat m pats c) acc with
    | some acc2 => classifyLoop m pats rest acc2
    | none => .error ("KeyError: " ++ assignCategory m pats (pyStrip c.message))

/-- `classify_commits` (lines 538-590): `cats` is `templates["categories"].keys()`
in order, `pats` is `templates["commit_patterns"].items()` in order. -/
def classify_commits (m : String → String → Bool) (cats : List String)
    (pats : List (String × String)) (commits : List CommitInfo) :
    Except String (List (String × List CommitInfo)) :=
  classifyLoop m pats commits (cats.map (fun k => (k, [])))

/- ------------------------------------------------------------------ -/
/- JSON values and a model of `json.loads` (standard library call).     -/
/- The model covers the JSON subset relevant to analysis responses:     -/
/- integer numerals, strings with the single-character escapes, arrays, -/
/- objects (duplicate keys keep the last value, as Python dicts do),    -/
/- true/false/null; floats and \u escapes are outside the model.        -/
/- ------------------------------------------------------------------ -/

inductive JValue where
  | null
  | bool (b : Bool)
  | num (n : Int)
  | str (s : String)
  | arr (elems : List JValue)
  | obj (fields : List (String × JValue))
deriving Repr

/-- JSON whitespace. -/
def jWsCh (c : Char) : Bool :=
  c == ' ' || c == '\t' || c == '\n' || c == '\r'

def skipJWs (cs : List Char) : List Char :=
  cs.dropWhile jWsCh

/-- A JSON string escape (`\uXXXX` is outside the model). -/
def escChar (e : Char) : Option Char :=
  if e == '"' then some ('"')
  else if e == '\\' then some ('\\')
  else if e == '/' then some ('/')
  else if e == 'b' then some (Char.ofNat 8)
  else if e == 'f' then some (Char.ofNat 12)
  else if e == 'n' then some ('\n')
  else if e == 'r' then some ('\r')
  else if e == 't' then some ('\t')
  else none

/-- Parse the body of a JSON string after the opening quote. -/
def parseJStr : Nat → List Char → Option (List Char × List Char)
  | 0, _ => none
  | Nat.succ fuel, cs =>
    match cs with
    | [] => none
    | c :: rest =>
      if c == '"' then some ([], rest)
      else if c == '\\' then
        match rest with
        | e :: r2 =>
          match escChar e with
          | some ch =>
            match parseJStr fuel r2 with
            | some (s, r) => some (ch :: s, r)
            | none => none
          | none => none
        | [] => none
      else if c.toNat < 32 then none
      else
        match parseJStr fuel rest with
        | some (s, r) => some (c :: s, r)
        | none => none

def digitVal (c : Char) : Nat := c.toNat - 48

/-- JSON unsigned integer: `0` or a nonzero digit followed by digits. -/
def parseJNat : List Char → Option (Nat × List Char)
  | [] => none
  | c :: rest =>
    if c == '0' then some (0, rest)
    else if c.isDigit then
      some ((rest.takeWhile Char.isDigit).foldl (fun a d => a * 10 + digitVal d) (digitVal c),
            rest.dropWhile Char.isDigit)
    else none

/-- JSON integer with optional minus sign. -/
def parseJInt : List Char → Option (Int × List Char)
  | '-' :: rest => (parseJNat rest).map (fun p => (-(p.1 : Int), p.2))
  | cs => (parseJNat cs).map (fun p => ((p.1 : Int), p.2))

/-- Insert into a Python dict under construction: an existing key keeps its
position and gets the new value, a new key is appended. -/
def objInsert (fields : List (String × JValue)) (k : String) (v : JValue) :
    List (String × JValue) :=
  match fields with
  | [] => [(k, v)]
  | (k2, v2) :: rest => if k2 == k then (k2, v) :: rest else (k2, v2) :: objInsert rest k v

mutual

/-- Parse one JSON value; the head character must already be non-whitespace. -/
def parseJ : Nat → List Char → Option (JValue × List Char)
  | 0, _ => none
  | Nat.succ fuel, cs =>
    match cs with
    | [] => none
    | c :: rest =>
      if c == '"' then
        match parseJStr (rest.length + 1) rest with
        | some (content, r) => some (.str (String.mk content), r)
        | none => none
      else if c == '{' then
        match skipJWs rest with
        | '}' :: r2 => some (.obj [], r2)
        | r2 => parseObjTail fuel r2 []
      else if c == '[' then
        match skipJWs rest with
        | ']' :: r2 => some (.arr [], r2)
        | r2 => parseArrTail fuel r2 []
      else if c == 't' then
        if listPre (("rue").data) rest then some (.bool true, rest.drop 3) else none
      else if c == 'f' then
        if listPre (("alse").data) rest then some (.bool false, rest.drop 4) else none
      else if c == 'n' then
        if listPre (("ull").data) rest then some (.null, rest.drop 3) else none
      else
        match parseJInt cs with
        | some (n, r) => some (.num n, r)
        | none => none

/-- Parse object members starting at a key. -/
def parseObjTail : Nat → List Char → List (String × JValue) →
    Option (JValue × List Char)
  | 0, _, _ => none
  | Nat.succ fuel, cs, acc =>
    match cs with
    | '"' :: rest =>
      match parseJStr (rest.length + 1) rest with
      | some (key, r1) =>
        match skipJWs r1 with
        | ':' :: r2 =>
          match parseJ fuel (skipJWs r2) with
          | some (v, r3) =>
            match skipJWs r3 with
            | ',' :: r4 => parseObjTail fuel (skipJWs r4) (objInsert acc (String.mk key) v)
            | '}' :: r4 => some (.obj (objInsert acc (String.mk key) v), r4)
            | _ => none
          | none => none
        | _ => none
      | none => none
    | _ => none

/-- Parse array elements starting at a value. -/
def parseArrTail : Nat → List Char → List JValue → Option (JValue × List Char)
  | 0, _, _ => none
  | Nat.succ fuel, cs, acc =>
    match parseJ fuel cs with
    | some (v, r1) =>
      match skipJWs r1 with
      | ',' :: r2 => parseArrTail fuel (skipJWs r2) (acc ++ [v])
      | ']' :: r2 => some (.arr (acc ++ [v]), r2)
      | _ => none
    | none => none

end

/-- Model of `json.loads`: the whole input must be consumed; any failure,
which Python reports as `json.JSONDecodeError`, is `none`. -/
def jsonLoads (s : String) : Option JValue :=
  match parseJ (s.data.length + 1) (skipJWs s.data) with
  | some (v, rest) => if skipJWs rest = [] then some v else none
  | none => none

/- ------------------------------------------------------------------ -/
/- AI response interpretation (call_deepseek_api, lines 592-717). -/
/- ------------------------------------------------------------------ -/

/-- `AnalysisResult` dataclass; field values keep their dynamic JSON type. -/
structure AnalysisResult where
  categories : JValue
  summary : JValue
  highlights : JValue
deriving Repr

/-- `ai_data.get(k, dflt)` on a parsed object. -/
def jGet (fields : List (String × JValue)) (k : String) (dflt : JValue) : JValue :=
  (fields.lookup k).getD dflt

/-- Whether Python `x[:50]` succeeds on the value (strings and lists slice;
numbers, booleans, null and dicts raise `TypeError`). -/
def sliceOk : JValue → Bool
  | .str _ => true
  | .arr _ => true
  | _ => false

/-- The `AnalysisResult(...)` construction of lines 667-671 / 696-700. -/
def mkAnalysis (fields : List (String × JValue)) : AnalysisResult :=
  { categories := jGet fields ("categories") (JValue.obj [])
  , summary := jGet fields ("summary") (JValue.str ("AI智能分析的版本更新"))
  , highlights := jGet fields ("highlights") (JValue.arr []) }

/-- Handling of one parsed document.  A non-object makes `ai_data.get` raise
`AttributeError`; an object whose summary is not sliceable makes the progress
report of line 664 / 693 raise `TypeError`; both are swallowed by the
`except Exception` handler of line 715, so the call returns `None`. -/
def tryDoc (j : JValue) : Option AnalysisResult :=
  match j with
  | .obj fields =>
    if sliceOk (jGet fields ("summary") (.str ("AI智能分析"))) then some (mkAnalysis fields)
    else none
  | _ => none

/-- Leftmost fenced block opened by `opening` and closed by the next three
backticks: the content `re.search` captures, before stripping. -/
def searchFenceAfter (opening : List Char) (cs : List Char) : Option (List Char) :=
  match findSub opening cs with
  | none => none
  | some i =>
    match findSub (("```").data) (cs.drop (i + opening.length)) with
    | none => none
    | some j => some ((cs.drop (i + opening.length)).take j)

/-- The regex of line 676 on arbitrary text, modulo the final strip. -/
def searchJsonFence (cs : List Char) : Option (List Char) :=
  searchFenceAfter (("```json").data) cs

/-- The regex of line 677 on arbitrary text, modulo the final strip. -/
def searchAnyFence (cs : List Char) : Option (List Char) :=
  searchFenceAfter (("```").data) cs

/-- The pattern loop of lines 675-685: first matching pattern wins and the
loop breaks; the captured group is stripped. -/
def extract_code_block (cs : List Char) : Option (List Char) :=
  match searchJsonFence cs with
  | some g => some (pyStripL g)
  | none =>
    match searchAnyFence cs with
    | some g => some (pyStripL g)
    | none => none

/-- Parse one extracted block the way lines 687-703 do: an empty extraction is
falsy and skipped; a parse failure is passed over; both end in `return None`. -/
def parseExtracted (g : List Char) : Option AnalysisResult :=
  if pyStripL g = [] then none
  else
    match jsonLoads (String.mk (pyStripL g)) with
    | some j => tryDoc j
    | none => none

/-- The interpreter over the raw AI text (lines 657-717): direct parse, then
fenced-block extraction; every failure path reaches a `return None`. -/
def interpret (ai_content : String) : Option AnalysisResult :=
  match jsonLoads ai_content with
  | some j => tryDoc j
  | none =>
    match extract_code_block ai_content.data with
    | some extracted =>
      if extracted = [] then none
      else
        match jsonLoads (String.mk extracted) with
        | some j => tryDoc j
        | none => none
    | none => none

/-- `commits_text` of lines 612-614. -/
def commitsDigest (commits : List CommitInfo) : String :=
  commits.foldl (fun acc c => acc ++ c.hash ++ "|" ++ c.message ++ "\n") ""

/-- `call_deepseek_api` (lines 592-717): `net` is the HTTP oracle, mapping the
commit digest to the response content (`none` covers HTTP errors, malformed
envelopes, empty content and request exceptions, all of which return `None`). -/
def call_deepseek_api (net : String → Option String) (commits : List CommitInfo) :
    Option AnalysisResult :=
  if commits.isEmpty then none
  else
    match net (commitsDigest commits) with
    | none => none
    | some content => if content = "" then none else interpret content

/-- `ai_success = ai_analysis is not None` (line 1294 / 1510). -/
def run_ai_success (net : String → Option String) (commits : List CommitInfo) : Bool :=
  (call_deepseek_api net commits).isSome

/- ------------------------------------------------------------------ -/
/- AI-path item rendering (generate_changelog_with_ai, lines 754-775). -/
/- ------------------------------------------------------------------ -/

/-- `x.get('importance', 1)` on an item.  A non-dict item would raise
`AttributeError` in the source; the model is used under the hypothesis that
items are objects. -/
def itemImpVal (it : JValue) : JValue :=
  match it with
  | .obj fs => jGet fs ("importance") (.num 1)
  | _ => .num 1

/-- The integer sort key.  Python `sorted` would raise `TypeError` on
non-integer keys mixed with integers; the model is used under the hypothesis
that every item's value is an integer. -/
def itemImpKey (it : JValue) : Int :=
  match itemImpVal it with
  | .num n => n
  | _ => 0

/-- `item.get(k, dflt)` for the message and hash fields. -/
def itemField (it : JValue) (k : String) (dflt : JValue) : JValue :=
  match it with
  | .obj fs => jGet fs k dflt
  | _ => dflt

/-- Stable insertion for a descending sort: walk past strictly larger keys. -/
def insertItem (x : JValue) : List JValue → List JValue
  | [] => [x]
  | y :: ys => if itemImpKey x < itemImpKey y then y :: insertItem x ys else x :: y :: ys

/-- `sorted(items, key=lambda x: x.get('importance', 1), reverse=True)`:
Python's sort is stable and `reverse=True` keeps ties in original order, which
is exactly stable insertion sort on the descending key order. -/
def sortItemsDesc : List JValue → List JValue
  | [] => []
  | x :: xs => insertItem x (sortItemsDesc xs)

/-- `importance_icons.get(str(importance), "•")` (line 769). -/
def itemIcon (icons : List (String × String)) (it : JValue) : String :=
  (icons.lookup (toString (itemImpKey it))).getD ("•")

/-- The per-category item loop (lines 763-775), rendered as the list of
(icon, message, hash) triples fed to the item template. -/
def renderAiCategory (icons : List (String × String)) (items : List JValue) :
    List (String × JValue × JValue) :=
  (sortItemsDesc items).map
    (fun it => (itemIcon icons it, itemField it ("message") (.str ""), itemField it ("hash") (.str "")))

/- ------------------------------------------------------------------ -/
/- Batch statistics update (print_realtime_summary, lines 1176-1254). -/
/- ------------------------------------------------------------------ -/

/-- The two counter-update blocks of `print_realtime_summary` (lines 1191-1197
and 1208-1226); printing and timing are not modelled. -/
def print_realtime_summary_stats (st : BatchStats) (success ai_success : Bool)
    (error_msg : Option String) : BatchStats :=
  let st1 :=
    if success then
      { st with success_count := st.success_count + 1
              , ai_success_count := st.ai_success_count + (if ai_success then 1 else 0) }
    else { st with error_count := st.error_count + 1 }
  if success then
    if error_msg = some ("NO_COMMITS") then { st1 with skipped_count := st1.skipped_count + 1 }
    else st1
  else if error_msg = some ("SKIPPED") then { st1 with skipped_count := st1.skipped_count + 1 }
  else st1

/- ------------------------------------------------------------------ -/
/- Batch overall-success decision (run_batch_processing, lines 1356-1360). -/
/- ------------------------------------------------------------------ -/

/-- `success_rate = success_count / len(all_releases); success_rate >= 0.8`;
the float division is idealised as exact rational division. -/
def run_batch_processing_success (success_count total_releases : Nat) : Bool :=
  decide ((0.8 : ℚ) ≤ (success_count : ℚ) / (total_releases : ℚ))

/- ================================================================== -/
/- Theorems. -/
/- ================================================================== -/

/-- C3: the batch run's aggregate success result is true exactly when the
success count over the total release count reaches the 0.8 threshold, the
boundary included; `4 * total ≤ 5 * succeeded` is the integer form of
`succeeded / total ≥ 0.8`. -/
theorem run_batch_threshold (s n : Nat) (hn : 0 < n) :
    run_batch_processing_success s n = true ↔ 4 * n ≤ 5 * s := by
  unfold run_batch_processing_success
  rw [decide_eq_true_eq]
  have hn' : (0 : ℚ) < (n : ℚ) := by exact_mod_cast hn
  rw [le_div_iff₀ hn']
  constructor
  · intro h
    have h2 : ((4 * n : Nat) : ℚ) ≤ ((5 * s : Nat) : ℚ) := by push_cast; linarith
    exact_mod_cast h2
  · intro h
    have h2 : ((4 * n : Nat) : ℚ) ≤ ((5 * s : Nat) : ℚ) := by exact_mod_cast h
    push_cast at h2
    linarith

/-- Witness for C3: a ratio of exactly 0.8 (4 of 5) is a success and a ratio
just below (79 of 100) is a failure. -/
theorem run_batch_threshold_witness :
    run_batch_processing_success 4 5 = true ∧ run_batch_processing_success 79 100 = false := by
  constructor
  · exact (run_batch_threshold 4 5 (by decide)).mpr (by decide)
  · have h := run_batch_threshold 79 100 (by decide)
    cases hb : run_batch_processing_success 79 100 with
    | false => rfl
    | true => exact absurd (h.mp hb) (by decide)

/-- C9 (amended): an empty-commit-range skip (`NO_COMMITS`) increments both the
success counter (the numerator of the aggregate-success ratio) and the skipped
counter; a no-optimization-needed skip (`SKIPPED`, reported with success=True)
increments the success counter only and leaves the skipped counter unchanged. -/
theorem skip_outcomes_counters (st : BatchStats) (ai : Bool) :
    ((print_realtime_summary_stats st true ai (some ("NO_COMMITS"))).success_count
        = st.success_count + 1
      ∧ (print_realtime_summary_stats st true ai (some ("NO_COMMITS"))).skipped_count
        = st.skipped_count + 1)
    ∧ (print_realtime_summary_stats st true ai (some ("SKIPPED"))).success_count
        = st.success_count + 1
    ∧ (print_realtime_summary_stats st true ai (some ("SKIPPED"))).skipped_count
        = st.skipped_count := by
  refine ⟨⟨?_, ?_⟩, ?_, ?_⟩ <;> simp [print_realtime_summary_stats]

/-- Counterexample for C9 as stated: a release whose outcome is the
no-optimization-needed skip (success=True, error message `SKIPPED`, as returned
by `process_single_release` line 1277) is counted in the success counter but
not in the skipped counter. -/
theorem skipped_not_counted_cex :
    (print_realtime_summary_stats {} true false (some ("SKIPPED"))).skipped_count = 0
    ∧ (print_realtime_summary_stats {} true false (some ("SKIPPED"))).success_count = 1 := by
  exact ⟨rfl, rfl⟩

/-- C10: with an empty commit list the analysis call returns absence
immediately; the result does not depend on the network oracle at all, and the
`ai_success` flag that selects the AI rendering path is false, so the
rule-based path is taken. -/
theorem empty_commits_no_request (net net2 : String → Option String)
    (commits : List CommitInfo) (h : commits = []) :
    call_deepseek_api net commits = none
    ∧ call_deepseek_api net commits = call_deepseek_api net2 commits
    ∧ run_ai_success net commits = false := by
  subst h
  exact ⟨rfl, rfl, rfl⟩

/-- Witness for C10 at the empty list and a network oracle that would answer
with a perfectly parseable document. -/
theorem empty_commits_no_request_witness :
    call_deepseek_api (fun _ => some ("\x7b\"summary\":\"ok\"\x7d")) [] = none :=
  (empty_commits_no_request (fun _ => some ("\x7b\"summary\":\"ok\"\x7d"))
    (fun _ => none) [] rfl).1

/-- C2: the interpreter is a total function into `Option` — every input string
yields a value or absence, never an error — and the parse strategies cascade:
the direct parse is used when it applies; the json-labelled fence is consulted
only when the direct parse failed; the unlabelled fence only when the labelled
search also failed; and when everything fails the result is absence. -/
theorem interpret_cascade (s : String) :
    (interpret s = none ∨ ∃ r, interpret s = some r)
    ∧ (∀ j, jsonLoads s = some j → interpret s = tryDoc j)
    ∧ (jsonLoads s = none → ∀ g, searchJsonFence s.data = some g →
        interpret s = parseExtracted g)
    ∧ (jsonLoads s = none → searchJsonFence s.data = none →
        ∀ g, searchAnyFence s.data = some g → interpret s = parseExtracted g)
    ∧ (jsonLoads s = none → searchJsonFence s.data = none → searchAnyFence s.data = none →
        interpret s = none) := by
  refine ⟨?_, ?_, ?_, ?_, ?_⟩
  · cases h : interpret s
    · exact Or.inl rfl
    · exact Or.inr ⟨_, rfl⟩
  · intro j hj
    unfold interpret
    rw [hj]
  · intro hn g hg
    unfold interpret extract_code_block parseExtracted
    rw [hn, hg]
  · intro hn hg1 g hg2
    unfold interpret extract_code_block parseExtracted
    rw [hn, hg1, hg2]
  · intro hn hg1 hg2
    unfold interpret extract_code_block
    rw [hn, hg1, hg2]

/-- Witness for C2: plain prose has no direct parse and no fenced block, and
the interpreter returns absence. -/
theorem interpret_cascade_witness : interpret ("hello there") = none :=
  (interpret_cascade ("hello there")).2.2.2.2 rfl rfl rfl

/-- C7 (amended): when interpretation obtains a JSON object whose summary
value, if present, is sliceable (a string or a list), interpretation succeeds;
missing fields default (categories to the empty mapping, summary to the stock
string, highlights to the empty list), so a document with no categories still
succeeds; and the prose-plus-json-fence scenario yields summary "ok", empty
highlights and empty categories.  A present but unsliceable summary (for
example a number) instead makes the call return absence (see the
counterexample). -/
theorem interpret_document_defaults :
    (∀ (s : String) (fields : List (String × JValue)),
        jsonLoads s = some (.obj fields) →
        sliceOk (jGet fields ("summary") (.str ("AI智能分析"))) = true →
        interpret s = some (mkAnalysis fields))
    ∧ (∀ fields, fields.lookup ("categories") = none →
        (mkAnalysis fields).categories = .obj [])
    ∧ (∀ fields, fields.lookup ("summary") = none →
        (mkAnalysis fields).summary = .str ("AI智能分析的版本更新"))
    ∧ (∀ fields, fields.lookup ("highlights") = none →
        (mkAnalysis fields).highlights = .arr [])
    ∧ interpret ("Here is the result:\n```json\n\x7b\"summary\":\"ok\"\x7d\n```")
        = some { categories := .obj [], summary := .str ("ok"), highlights := .arr [] } := by
  refine ⟨?_, ?_, ?_, ?_, ?_⟩
  · intro s fields hj hs
    simp [interpret, hj, tryDoc, hs]
  · intro fields h
    simp [mkAnalysis, jGet, h]
  · intro fields h
    simp [mkAnalysis, jGet, h]
  · intro fields h
    simp [mkAnalysis, jGet, h]
  · rfl

/-- Witness for C7's universally quantified part: a document with one
irrelevant field and no categories parses and succeeds with all defaults. -/
theorem interpret_document_defaults_witness :
    interpret ("\x7b\"x\": 1\x7d") = some (mkAnalysis [("x", JValue.num 1)]) :=
  interpret_document_defaults.1 ("\x7b\"x\": 1\x7d") [("x", JValue.num 1)] rfl rfl

/-- Counterexample for C7 as stated: `\x7b"summary": 5\x7d` parses to a
structured document with no categories, yet the interpreter returns absence —
the integer summary makes the `[:50]` slice of the progress report raise
`TypeError`, which the blanket handler converts to `None`. -/
theorem interpret_nonstring_summary_cex :
    jsonLoads ("\x7b\"summary\": 5\x7d") = some (.obj [("summary", .num 5)])
    ∧ interpret ("\x7b\"summary\": 5\x7d") = none := by
  exact ⟨rfl, rfl⟩

/-- A successful pattern-loop lookup splits the configuration at the first
matching entry: everything before it is either the skipped OTHER key or a
non-matching pattern. -/
theorem matchFirst_split {m : String → String → Bool} :
    ∀ (pats : List (String × String)) (msg cat : String),
      matchFirst m pats msg = some cat →
      ∃ l1 p l2, pats = l1 ++ (cat, p) :: l2 ∧ cat ≠ "OTHER" ∧ m p msg = true ∧
        ∀ q ∈ l1, q.1 = "OTHER" ∨ m q.2 msg = false := by
  intro pats
  induction pats with
  | nil => intro msg cat h; simp [matchFirst] at h
  | cons hd rest ih =>
    intro msg cat h
    obtain ⟨c0, p0⟩ := hd
    by_cases hc : c0 = "OTHER"
    · have h2 : matchFirst m rest msg = some cat := by
        simpa [matchFirst, hc] using h
      obtain ⟨l1, p, l2, e, hne, hm, hall⟩ := ih msg cat h2
      refine ⟨(c0, p0) :: l1, p, l2, by simp [e], hne, hm, ?_⟩
      intro q hq
      rcases List.mem_cons.mp hq with hq | hq
      · exact Or.inl (by simp [hq, hc])
      · exact hall q hq
    · by_cases hm0 : m p0 msg
      · have h2 : some c0 = some cat := by
          simpa [matchFirst, hc, hm0] using h
        obtain rfl : c0 = cat := Option.some.inj h2
        exact ⟨[], p0, rest, by simp, hc, by simpa using hm0, by simp⟩
      · have h2 : matchFirst m rest msg = some cat := by
          simpa [matchFirst, hc, hm0] using h
        obtain ⟨l1, p, l2, e, hne, hm, hall⟩ := ih msg cat h2
        refine ⟨(c0, p0) :: l1, p, l2, by simp [e], hne, hm, ?_⟩
        intro q hq
        rcases List.mem_cons.mp hq with hq | hq
        · exact Or.inr (by simp [hq]; exact eq_false_of_ne_true (by simpa using hm0))
        · exact hall q hq

/-- A matched category comes from a non-OTHER configuration entry. -/
theorem matchFirst_mem {m : String → String → Bool}
    {pats : List (String × String)} {msg cat : String}
    (h : matchFirst m pats msg = some cat) :
    cat ≠ "OTHER" ∧ ∃ p, (cat, p) ∈ pats := by
  obtain ⟨l1, p, l2, e, hne, _, _⟩ := matchFirst_split pats msg cat h
  exact ⟨hne, p, by simp [e]⟩

/-- A case-insensitive matcher classifies case-equivalent messages alike. -/
theorem matchFirst_ci {m : String → String → Bool}
    (hm : ∀ p s, m p s = m p (lowerStr s)) :
    ∀ (pats : List (String × String)) (s s2 : String), lowerStr s = lowerStr s2 →
      matchFirst m pats s = matchFirst m pats s2 := by
  intro pats
  induction pats with
  | nil => intro s s2 _; rfl
  | cons hd rest ih =>
    intro s s2 hlow
    obtain ⟨c0, p0⟩ := hd
    have hms : m p0 s = m p0 s2 := by rw [hm p0 s, hm p0 s2, hlow]
    by_cases hc : c0 = "OTHER"
    · simp [matchFirst, hc, ih s s2 hlow]
    · simp [matchFirst, hc, hms, ih s s2 hlow]

/-- C6: the classifier tests the configured patterns in order with the OTHER
key excluded and keeps the first match (everything earlier was OTHER or did not
match); its verdict is a function of the stripped subject line only, so the
body never matters; and when the matcher is case-insensitive — as
`re.IGNORECASE` makes it — case-equivalent subjects receive the same
category. -/
theorem classifier_subject_first_match (m : String → String → Bool)
    (pats : List (String × String)) :
    (∀ msg cat, matchFirst m pats msg = some cat →
        ∃ l1 p l2, pats = l1 ++ (cat, p) :: l2 ∧ cat ≠ "OTHER" ∧ m p msg = true ∧
          ∀ q ∈ l1, q.1 = "OTHER" ∨ m q.2 msg = false)
    ∧ (∀ c : CommitInfo,
        (updateCommitCat m pats c).category = assignCategory m pats (pyStrip c.message))
    ∧ (∀ c c2 : CommitInfo, c.message = c2.message →
        (updateCommitCat m pats c).category = (updateCommitCat m pats c2).category)
    ∧ ((∀ p s, m p s = m p (lowerStr s)) →
        ∀ s s2, lowerStr s = lowerStr s2 →
          assignCategory m pats s = assignCategory m pats s2) := by
  refine ⟨fun msg cat h => matchFirst_split pats msg cat h, fun c => rfl, ?_, ?_⟩
  · intro c c2 he
    simp [updateCommitCat, he]
  · intro hm s s2 hlow
    unfold assignCategory
    rw [matchFirst_ci hm pats s s2 hlow]

/-- Witness for C6: with a matcher recognising the pattern "f" on subject
"feat", the first matching entry is FEATURE and the body is ignored. -/
theorem classifier_subject_first_match_witness :
    ∃ l1 p l2, [("FEATURE", "f"), ("FIX", "x")] = l1 ++ (("FEATURE", p)) :: l2 ∧
      ("FEATURE" : String) ≠ "OTHER" ∧
      (fun (p : String) (msg : String) => p == "f" && msg == "feat") p ("feat") = true ∧
      ∀ q ∈ l1, q.1 = "OTHER" ∨
        (fun (p : String) (msg : String) => p == "f" && msg == "feat") q.2 ("feat") = false :=
  (classifier_subject_first_match (fun p msg => p == "f" && msg == "feat")
    [("FEATURE", "f"), ("FIX", "x")]).1 ("feat") ("FEATURE") rfl

/-- `splitCh` always yields at least one group. -/
theorem splitCh_ne_nil (sep : Char) (l : List Char) : splitCh sep l ≠ [] := by
  induction l with
  | nil => simp [splitCh]
  | cons c r ih =>
    by_cases hc : (c == sep) = true
    · simp [splitCh, hc]
    · have hcb : (c == sep) = false := by simpa using hc
      cases h2 : splitCh sep r with
      | nil => exact absurd h2 ih
      | cons g gs => simp [splitCh, hcb, h2]

/-- A separator-free list splits into itself. -/
theorem splitCh_no_sep {sep : Char} {l : List Char} (h : sep ∉ l) : splitCh sep l = [l] := by
  induction l with
  | nil => rfl
  | cons c r ih =>
    have hc : (c == sep) = false := by
      rw [beq_eq_false_iff_ne]
      intro e
      exact h (by simp [← e])
    have hr : sep ∉ r := fun hm => h (List.mem_cons_of_mem _ hm)
    simp [splitCh, hc, ih hr]

/-- Splitting after a separator-free first part peels it off. -/
theorem splitCh_append {sep : Char} {a : List Char} (b : List Char) (h : sep ∉ a) :
    splitCh sep (a ++ sep :: b) = a :: splitCh sep b := by
  induction a with
  | nil => simp [splitCh]
  | cons c a2 ih =>
    have hc : (c == sep) = false := by
      rw [beq_eq_false_iff_ne]
      intro e
      exact h (by simp [← e])
    have ha : sep ∉ a2 := fun hm => h (List.mem_cons_of_mem _ hm)
    simp [splitCh, hc, ih ha]

/-- `joinPipes` undoes `splitCh '|'`. -/
theorem joinPipes_splitCh (l : List Char) : joinPipes (splitCh '|' l) = l := by
  induction l with
  | nil => rfl
  | cons c r ih =>
    by_cases hc : c = '|'
    · subst hc
      have h1 : splitCh '|' ('|' :: r) = [] :: splitCh '|' r := by simp [splitCh]
      rw [h1]
      cases h2 : splitCh '|' r with
      | nil => exact absurd h2 (splitCh_ne_nil _ _)
      | cons g gs =>
        have hj : joinPipes (g :: gs) = r := by rw [← h2]; exact ih
        simp [joinPipes, hj]
    · have hcb : (c == '|') = false := by simp [hc]
      cases h2 : splitCh '|' r with
      | nil => exact absurd h2 (splitCh_ne_nil _ _)
      | cons g gs =>
        have hj : joinPipes (g :: gs) = r := by rw [← h2]; exact ih
        have h1 : splitCh '|' (c :: r) = (c :: g) :: gs := by simp [splitCh, hcb, h2]
        rw [h1]
        cases gs with
        | nil =>
          have hg : g = r := by simpa [joinPipes] using hj
          simp [joinPipes, hg]
        | cons g2 gs2 =>
          have hstep : joinPipes ((c :: g) :: g2 :: gs2)
              = c :: (g ++ '|' :: joinPipes (g2 :: gs2)) := rfl
          have hstep2 : joinPipes (g :: g2 :: gs2) = g ++ '|' :: joinPipes (g2 :: gs2) := rfl
          rw [hstep, ← hstep2, hj]

/-- C5: a line with an id, a subject and a body yields a record with the body
stripped; the body is optional; a line with no pipe (no subject field) yields
nothing; a line with an empty id yields nothing; and lines are handled
independently — so exactly the lines carrying an id and a subject produce
records, the rest are dropped silently. -/
theorem parse_lines_policy :
    (∀ pre mid post : List Char, '|' ∉ pre → '|' ∉ mid → pre ≠ [] →
        parseCommitLine? (pre ++ '|' :: mid ++ '|' :: post) =
          some { hash := String.mk pre, message := String.mk (pyStripL mid),
                 body := String.mk (pyStripL post) })
    ∧ (∀ pre mid : List Char, '|' ∉ pre → '|' ∉ mid → pre ≠ [] →
        parseCommitLine? (pre ++ '|' :: mid) =
          some { hash := String.mk pre, message := String.mk (pyStripL mid), body := "" })
    ∧ (∀ l : List Char, '|' ∉ l → parseCommitLine? l = none)
    ∧ (∀ rest : List Char, parseCommitLine? ('|' :: rest) = none)
    ∧ (∀ l1 l2 : List Char, '\n' ∉ l1 →
        parseCommitLines (String.mk (l1 ++ '\n' :: l2)) =
          (parseCommitLine? l1).toList ++ parseCommitLines (String.mk l2)) := by
  refine ⟨?_, ?_, ?_, ?_, ?_⟩
  · intro pre mid post hpre hmid hne
    have hpe : pre.isEmpty = false := by
      cases pre with
      | nil => exact absurd rfl hne
      | cons _ _ => rfl
    have h1 : splitCh '|' (pre ++ '|' :: (mid ++ '|' :: post))
        = pre :: mid :: splitCh '|' post := by
      rw [splitCh_append _ hpre, splitCh_append _ hmid]
    cases h2 : splitCh '|' post with
    | nil => exact absurd h2 (splitCh_ne_nil _ _)
    | cons q qs =>
      have hj : joinPipes (q :: qs) = post := by rw [← h2]; exact joinPipes_splitCh post
      simp [parseCommitLine?, splitPipe2, h1, h2, hj, hpe]
  · intro pre mid hpre hmid hne
    have hpe : pre.isEmpty = false := by
      cases pre with
      | nil => exact absurd rfl hne
      | cons _ _ => rfl
    have h1 : splitCh '|' (pre ++ '|' :: mid) = pre :: [mid] := by
      rw [splitCh_append _ hpre, splitCh_no_sep hmid]
    simp [parseCommitLine?, splitPipe2, h1, hpe]
  · intro l hl
    simp [parseCommitLine?, splitPipe2, splitCh_no_sep hl]
  · intro rest
    have h1 : splitCh '|' ('|' :: rest) = [] :: splitCh '|' rest := by simp [splitCh]
    cases h2 : splitCh '|' rest with
    | nil => exact absurd h2 (splitCh_ne_nil _ _)
    | cons g gs =>
      cases gs with
      | nil => simp [parseCommitLine?, splitPipe2, h1, h2]
      | cons g2 gs2 => simp [parseCommitLine?, splitPipe2, h1, h2]
  · intro l1 l2 h1
    show (splitCh '\n' (l1 ++ '\n' :: l2)).filterMap parseCommitLine?
        = (parseCommitLine? l1).toList ++ (splitCh '\n' l2).filterMap parseCommitLine?
    rw [splitCh_append _ h1, List.filterMap_cons]
    cases parseCommitLine? l1 <;> simp

/-- Witness for C5: a well-formed line parses into a record with stripped
subject and body; `ab|` (empty subject field after the pipe) still yields a
record with an empty subject, while `nopipe` and `|x` are dropped. -/
theorem parse_lines_policy_witness :
    parseCommitLine? (("ab| cd | ef ").data)
        = some { hash := "ab", message := "cd", body := "ef" }
    ∧ parseCommitLine? (("nopipe").data) = none
    ∧ parseCommitLine? (("|x").data) = none := by
  refine ⟨?_, ?_, ?_⟩
  · exact parse_lines_policy.1 (("ab").data) ((" cd ").data) ((" ef ").data)
      (by decide) (by decide) (by decide)
  · exact parse_lines_policy.2.2.1 (("nopipe").data) (by decide)
  · exact parse_lines_policy.2.2.2.1 (("x").data)

/-- Inserting is a permutation of consing. -/
theorem insertItem_perm (x : JValue) : ∀ l : List JValue, (insertItem x l).Perm (x :: l) := by
  intro l
  induction l with
  | nil => rfl
  | cons y ys ih =>
    by_cases h : itemImpKey x < itemImpKey y
    · simp only [insertItem, if_pos h]
      exact (ih.cons y).trans (List.Perm.swap x y ys)
    · simp only [insertItem, if_neg h]
      exact List.Perm.refl _

/-- The stable descending sort permutes its input. -/
theorem sortItemsDesc_perm : ∀ l : List JValue, (sortItemsDesc l).Perm l := by
  intro l
  induction l with
  | nil => rfl
  | cons x xs ih => exact (insertItem_perm x (sortItemsDesc xs)).trans (ih.cons x)

/-- Inserting into a descending list keeps it descending. -/
theorem insertItem_pairwise (x : JValue) :
    ∀ l : List JValue, l.Pairwise (fun a b => itemImpKey b ≤ itemImpKey a) →
      (insertItem x l).Pairwise (fun a b => itemImpKey b ≤ itemImpKey a) := by
  intro l
  induction l with
  | nil => intro _; simp [insertItem]
  | cons y ys ih =>
    intro h
    obtain ⟨hy, hys⟩ := List.pairwise_cons.mp h
    by_cases hlt : itemImpKey x < itemImpKey y
    · simp only [insertItem, if_pos hlt]
      refine List.pairwise_cons.mpr ⟨?_, ih hys⟩
      intro z hz
      rcases List.mem_cons.mp ((insertItem_perm x ys).mem_iff.mp hz) with hz | hz
      · exact hz ▸ le_of_lt hlt
      · exact hy z hz
    · simp only [insertItem, if_neg hlt]
      refine List.pairwise_cons.mpr ⟨?_, h⟩
      intro z hz
      rcases List.mem_cons.mp hz with hz | hz
      · exact hz ▸ le_of_not_lt hlt
      · exact le_trans (hy z hz) (le_of_not_lt hlt)

/-- The sorted item list is descending by importance. -/
theorem sortItemsDesc_pairwise :
    ∀ l : List JValue, (sortItemsDesc l).Pairwise (fun a b => itemImpKey b ≤ itemImpKey a) := by
  intro l
  induction l with
  | nil => simp [sortItemsDesc]
  | cons x xs ih => exact insertItem_pairwise x (sortItemsDesc xs) ih

/-- Insertion interacts with filtering on one key value. -/
theorem insertItem_filter (x : JValue) (k : Int) :
    ∀ l : List JValue,
      (insertItem x l).filter (fun it => itemImpKey it == k)
        = if itemImpKey x == k then x :: l.filter (fun it => itemImpKey it == k)
          else l.filter (fun it => itemImpKey it == k) := by
  intro l
  induction l with
  | nil => by_cases hx : itemImpKey x == k <;> simp [insertItem, hx]
  | cons y ys ih =>
    by_cases hlt : itemImpKey x < itemImpKey y
    · simp only [insertItem, if_pos hlt, List.filter_cons]
      by_cases hx : itemImpKey x == k
      · have hy : (itemImpKey y == k) = false := by
          rw [beq_eq_false_iff_ne]
          intro e
          rw [beq_iff_eq] at hx
          rw [e, ← hx] at hlt
          exact lt_irrefl _ hlt
        simp [hy, ih, hx]
      · have hx2 : (itemImpKey x == k) = false := by simpa using hx
        by_cases hy : itemImpKey y == k
        · simp [hy, ih, hx2]
        · have hy2 : (itemImpKey y == k) = false := by simpa using hy
          simp [hy2, ih, hx2]
    · simp only [insertItem, if_neg hlt, List.filter_cons]

/-- C8 stability: sorting does not reorder items of equal importance. -/
theorem sortItemsDesc_filter (k : Int) :
    ∀ l : List JValue,
      (sortItemsDesc l).filter (fun it => itemImpKey it == k)
        = l.filter (fun it => itemImpKey it == k) := by
  intro l
  induction l with
  | nil => rfl
  | cons x xs ih =>
    show (insertItem x (sortItemsDesc xs)).filter (fun it => itemImpKey it == k) = _
    rw [insertItem_filter, List.filter_cons]
    by_cases hx : itemImpKey x == k
    · simp [hx, ih]
    · have hx2 : (itemImpKey x == k) = false := by simpa using hx
      simp [hx2, ih]

/-- C8: in the AI rendering path the per-category items are emitted in a
permutation of the input that is sorted descending by integer importance with
ties kept in original order (a stable sort), and each rendered item's icon is
the lookup of its importance in the icon mapping, falling back to the default
bullet when the importance is not a key of the mapping. -/
theorem ai_items_sorted_stable (icons : List (String × String)) (items : List JValue)
    (_hint : ∀ it ∈ items, ∃ n : Int, itemImpVal it = .num n) :
    (sortItemsDesc items).Perm items
    ∧ (sortItemsDesc items).Pairwise (fun a b => itemImpKey b ≤ itemImpKey a)
    ∧ (∀ k : Int, (sortItemsDesc items).filter (fun it => itemImpKey it == k)
        = items.filter (fun it => itemImpKey it == k))
    ∧ renderAiCategory icons items
        = (sortItemsDesc items).map
            (fun it => (itemIcon icons it, itemField it ("message") (.str ""),
                        itemField it ("hash") (.str "")))
    ∧ (∀ it ∈ items, icons.lookup (toString (itemImpKey it)) = none →
        itemIcon icons it = "•") := by
  refine ⟨sortItemsDesc_perm items, sortItemsDesc_pairwise items,
    fun k => sortItemsDesc_filter k items, rfl, ?_⟩
  intro it _ h
  simp [itemIcon, h]

/-- Witness for C8: three items, two sharing importance 1, one with importance
3 and one with an unmapped importance; the render puts the importance-3 item
first, keeps the tie in input order, and uses the default bullet icon for the
unmapped importance. -/
theorem ai_items_sorted_stable_witness :
    (sortItemsDesc [JValue.obj [("importance", JValue.num 1), ("message", JValue.str ("a"))],
        JValue.obj [("importance", JValue.num 3)],
        JValue.obj [("importance", JValue.num 1), ("message", JValue.str ("b"))]]).Perm
      [JValue.obj [("importance", JValue.num 1), ("message", JValue.str ("a"))],
        JValue.obj [("importance", JValue.num 3)],
        JValue.obj [("importance", JValue.num 1), ("message", JValue.str ("b"))]]
    ∧ itemIcon [("3", "🚀")] (JValue.obj [("importance", JValue.num 1)]) = "•" := by
  constructor
  · exact (ai_items_sorted_stable [("3", "🚀")]
      [JValue.obj [("importance", JValue.num 1), ("message", JValue.str ("a"))],
        JValue.obj [("importance", JValue.num 3)],
        JValue.obj [("importance", JValue.num 1), ("message", JValue.str ("b"))]]
      (by
        intro it hit
        simp only [List.mem_cons, List.not_mem_nil, or_false] at hit
        rcases hit with h | h | h
        · exact ⟨1, by rw [h]; rfl⟩
        · exact ⟨3, by rw [h]; rfl⟩
        · exact ⟨1, by rw [h]; rfl⟩)).1
  · exact (ai_items_sorted_stable [("3", "🚀")] [JValue.obj [("importance", JValue.num 1)]]
      (by
        intro it hit
        simp only [List.mem_cons, List.not_mem_nil, or_false] at hit
        exact ⟨1, by rw [hit]; rfl⟩)).2.2.2.2
      (JValue.obj [("importance", JValue.num 1)]) (by simp) rfl

/-- C4: the resolver widens its query step by step when the primary range is
empty — first retrying with merge commits (when a previous tag exists), then
with the single commit at the tag, finally reporting the explicit empty result
— and a failing git call is signalled as an error-labelled empty value, never
an exception. -/
theorem resolver_widening (env : GitEnv) (version tagsRaw r1 r2 r3 last : String) :
    (env.tagsOut = .error () →
        get_git_commits env version = ([], "Git错误-" ++ version, 0))
    ∧ (env.tagsOut = .ok tagsRaw →
        env.logNoMerges (rangeArg (lastTagFor tagsRaw version) version) = .error () →
        get_git_commits env version = ([], "Git错误-" ++ version, 0))
    ∧ (env.tagsOut = .ok tagsRaw →
        env.logNoMerges (rangeArg (lastTagFor tagsRaw version) version) = .ok r1 →
        pyStrip r1 ≠ "" →
        get_git_commits env version =
          (parseCommitLines (pyStrip r1), rangeLabel (lastTagFor tagsRaw version) version,
           (parseCommitLines (pyStrip r1)).length))
    ∧ (env.tagsOut = .ok tagsRaw → lastTagFor tagsRaw version = some last →
        env.logNoMerges (rangeArg (lastTagFor tagsRaw version) version) = .ok r1 →
        pyStrip r1 = "" →
        env.logWithMerges (rangeArg (lastTagFor tagsRaw version) version) = .ok r2 →
        pyStrip r2 ≠ "" →
        get_git_commits env version =
          (parseCommitLines (pyStrip r2), rangeLabel (lastTagFor tagsRaw version) version,
           (parseCommitLines (pyStrip r2)).length))
    ∧ (env.tagsOut = .ok tagsRaw → lastTagFor tagsRaw version = some last →
        env.logNoMerges (rangeArg (lastTagFor tagsRaw version) version) = .ok r1 →
        pyStrip r1 = "" →
        env.logWithMerges (rangeArg (lastTagFor tagsRaw version) version) = .ok r2 →
        pyStrip r2 = "" →
        env.logSingle version = .ok r3 →
        (pyStrip r3 ≠ "" →
          get_git_commits env version =
            (parseCommitLines (pyStrip r3), "版本" ++ version ++ "的标签提交",
             (parseCommitLines (pyStrip r3)).length))
        ∧ (pyStrip r3 = "" →
          get_git_commits env version = ([], "空发布-" ++ version, 0)))
    ∧ (env.tagsOut = .ok tagsRaw → lastTagFor tagsRaw version = none →
        env.logNoMerges (rangeArg none version) = .ok r1 →
        pyStrip r1 = "" →
        env.logSingle version = .ok r3 →
        (pyStrip r3 ≠ "" →
          get_git_commits env version =
            (parseCommitLines (pyStrip r3), "版本" ++ version ++ "的标签提交",
             (parseCommitLines (pyStrip r3)).length))
        ∧ (pyStrip r3 = "" →
          get_git_commits env version = ([], "空发布-" ++ version, 0))) := by
  refine ⟨?_, ?_, ?_, ?_, ?_, ?_⟩
  · intro h
    simp [get_git_commits, get_git_commits_core, h]
  · intro h h1
    simp [get_git_commits, get_git_commits_core, gitStage1, h, h1]
  · intro h h1 hne
    simp [get_git_commits, get_git_commits_core, gitStage1, h, h1, hne]
  · intro h hlt h1 he1 h2 hne2
    rw [hlt] at h1 h2
    simp [get_git_commits, get_git_commits_core, gitStage1, gitStage2, h, hlt, h1, he1, h2, hne2]
  · intro h hlt h1 he1 h2 he2 h3
    rw [hlt] at h1 h2
    constructor
    · intro hne3
      simp [get_git_commits, get_git_commits_core, gitStage1, gitStage2, gitStage3,
        h, hlt, h1, he1, h2, he2, h3, hne3]
    · intro he3
      simp [get_git_commits, get_git_commits_core, gitStage1, gitStage2, gitStage3,
        h, hlt, h1, he1, h2, he2, h3, he3]
  · intro h hlt h1 he1 h3
    constructor
    · intro hne3
      simp [get_git_commits, get_git_commits_core, gitStage1, gitStage2, gitStage3,
        h, hlt, h1, he1, h3, hne3]
    · intro he3
      simp [get_git_commits, get_git_commits_core, gitStage1, gitStage2, gitStage3,
        h, hlt, h1, he1, h3, he3]

/-- Witness for C4: tags v1.1.0 and v1.0.0, an empty primary range, an empty
with-merges retry, and a single tag commit; the resolver lands on the
single-commit fallback with its dedicated range label. -/
theorem resolver_widening_witness :
    get_git_commits
      { tagsOut := .ok ("v1.1.0\nv1.0.0")
      , logNoMerges := fun _ => .ok ("")
      , logWithMerges := fun _ => .ok ("")
      , logSingle := fun _ => .ok ("abc|msg") }
      ("v1.1.0")
      = ([{ hash := "abc", message := "msg" }], "版本v1.1.0的标签提交", 1) :=
  ((resolver_widening
      { tagsOut := .ok ("v1.1.0\nv1.0.0")
      , logNoMerges := fun _ => .ok ("")
      , logWithMerges := fun _ => .ok ("")
      , logSingle := fun _ => .ok ("abc|msg") }
      ("v1.1.0") ("v1.1.0\nv1.0.0") ("") ("") ("abc|msg")
      ("v1.0.0")).2.2.2.2.1 rfl rfl rfl rfl rfl rfl rfl).1 (by decide)

/-- Appending to a present key of a nodup association list succeeds and
extends exactly that key's sequence. -/
theorem alAppend_of_mem (k : String) (v : CommitInfo) :
    ∀ l : List (String × List CommitInfo),
      (l.map Prod.fst).Nodup → k ∈ l.map Prod.fst →
      alAppend k v l = some (l.map (fun kv => if kv.1 = k then (kv.1, kv.2 ++ [v]) else kv)) := by
  intro l
  induction l with
  | nil => intro _ h; simp at h
  | cons hd rest ih =>
    intro hnd hmem
    obtain ⟨k2, vs⟩ := hd
    simp only [List.map_cons, List.nodup_cons] at hnd
    obtain ⟨hk2, hndr⟩ := hnd
    by_cases he : k2 = k
    · subst he
      have hrest : ∀ kv ∈ rest, (if kv.1 = k2 then (kv.1, kv.2 ++ [v]) else kv) = kv := by
        intro kv hkv
        have hne : kv.1 ≠ k2 := fun e => hk2 (e ▸ List.mem_map_of_mem Prod.fst hkv)
        simp [hne]
      simp [alAppend, List.map_congr_left hrest]
    · have hmem2 : k ∈ rest.map Prod.fst := by
        simp only [List.map_cons, List.mem_cons] at hmem
        rcases hmem with h | h
        · exact absurd h.symm he
        · exact h
      simp [alAppend, he, ih hndr hmem2, Ne.symm he]

/-- The per-commit loop appends every commit, with its category field set, to
the sequence of its assigned category, provided all assigned categories are
keys of the accumulator. -/
theorem classifyLoop_ok (m : String → String → Bool) (pats : List (String × String)) :
    ∀ (commits : List CommitInfo) (acc : List (String × List CommitInfo)),
      (acc.map Prod.fst).Nodup →
      (∀ c ∈ commits, assignCategory m pats (pyStrip c.message) ∈ acc.map Prod.fst) →
      classifyLoop m pats commits acc =
        .ok (acc.map (fun kv =>
          (kv.1, kv.2 ++ (commits.map (updateCommitCat m pats)).filter
            (fun c => c.category == kv.1)))) := by
  intro commits
  induction commits with
  | nil =>
    intro acc _ _
    simp [classifyLoop]
  | cons c rest ih =>
    intro acc hnd hmem
    have hc : assignCategory m pats (pyStrip c.message) ∈ acc.map Prod.fst :=
      hmem c (List.mem_cons_self _ _)
    have hstep : classifyLoop m pats (c :: rest) acc =
        classifyLoop m pats rest
          (acc.map (fun kv => if kv.1 = assignCategory m pats (pyStrip c.message)
            then (kv.1, kv.2 ++ [updateCommitCat m pats c]) else kv)) := by
      rw [classifyLoop, alAppend_of_mem _ _ acc hnd hc]
    have hkeys : ((acc.map (fun kv => if kv.1 = assignCategory m pats (pyStrip c.message)
        then (kv.1, kv.2 ++ [updateCommitCat m pats c]) else kv)).map Prod.fst)
        = acc.map Prod.fst := by
      rw [List.map_map]
      apply List.map_congr_left
      intro kv _
      by_cases h : kv.1 = assignCategory m pats (pyStrip c.message) <;> simp [h]
    rw [hstep, ih _ (by rw [hkeys]; exact hnd)
      (by intro x hx; rw [hkeys]; exact hmem x (List.mem_cons_of_mem _ hx))]
    congr 1
    rw [List.map_map]
    apply List.map_congr_left
    intro kv _
    obtain ⟨k1, vs⟩ := kv
    by_cases h : k1 = assignCategory m pats (pyStrip c.message)
    · have hcat : ((updateCommitCat m pats c).category == k1) = true := by
        show (assignCategory m pats (pyStrip c.message) == k1) = true
        simp [h]
      simp only [Function.comp_apply]
      rw [if_pos h]
      dsimp only
      rw [List.map_cons, List.filter_cons, hcat]
      simp [List.append_assoc]
    · have hcat : ((updateCommitCat m pats c).category == k1) = false := by
        show (assignCategory m pats (pyStrip c.message) == k1) = false
        rw [beq_eq_false_iff_ne]
        exact fun e => h e.symm
      simp only [Function.comp_apply]
      rw [if_neg h]
      dsimp only
      rw [List.map_cons, List.filter_cons, hcat]
      simp

/-- The assigned category is always a configured key once the pattern keys are
covered and OTHER is present. -/
theorem assignCategory_mem {m : String → String → Bool} {pats : List (String × String)}
    {cats : List String}
    (hp : ∀ cp ∈ pats, cp.1 ≠ "OTHER" → cp.1 ∈ cats) (ho : "OTHER" ∈ cats) (msg : String) :
    assignCategory m pats msg ∈ cats := by
  unfold assignCategory
  cases h : matchFirst m pats msg with
  | none => simpa using ho
  | some cat =>
    obtain ⟨hne, p, hmem⟩ := matchFirst_mem h
    simpa using hp (cat, p) hmem hne

/-- Distributing one commit into the bucket of its category is, up to
permutation, consing it onto the flattened buckets. -/
theorem join_cons_perm (c : CommitInfo) (f : String → List CommitInfo) :
    ∀ cats : List String, cats.Nodup → c.category ∈ cats →
      ((cats.map (fun k => if c.category == k then c :: f k else f k)).flatten).Perm
        (c :: (cats.map f).flatten) := by
  intro cats
  induction cats with
  | nil => intro _ h; simp at h
  | cons k ks ih =>
    intro hnd hmem
    simp only [List.nodup_cons] at hnd
    obtain ⟨hk, hndk⟩ := hnd
    by_cases hc : c.category = k
    · have hbt : (c.category == k) = true := by simp [hc]
      have hrest : ∀ k2 ∈ ks, (if c.category == k2 then c :: f k2 else f k2) = f k2 := by
        intro k2 hk2
        have hne : (c.category == k2) = false := by
          rw [beq_eq_false_iff_ne]
          intro e
          exact hk (by rw [hc.symm.trans e]; exact hk2)
        simp [hne]
      rw [List.map_cons, hbt, List.map_congr_left hrest]
      simp
    · have hbf : (c.category == k) = false := by simp [hc]
      have hmem2 : c.category ∈ ks := by
        rcases List.mem_cons.mp hmem with h | h
        · exact absurd h hc
        · exact h
      rw [List.map_cons, hbf, List.map_cons]
      simp only [if_false, List.flatten_cons]
      exact ((ih hndk hmem2).append_left (f k)).trans List.perm_middle

/-- Flattening a list of empty buckets gives the empty list. -/
theorem flatten_nil_map (l : List String) :
    (l.map (fun _ => ([] : List CommitInfo))).flatten = [] := by
  induction l with
  | nil => rfl
  | cons _ _ ih => simp only [List.map_cons, List.flatten_cons, List.nil_append, ih]

/-- Flattening all per-category buckets permutes the classified list when every
element's category is one of the nodup keys. -/
theorem join_filter_perm (cats : List String) (hnd : cats.Nodup) :
    ∀ L : List CommitInfo, (∀ x ∈ L, x.category ∈ cats) →
      ((cats.map (fun k => L.filter (fun x => x.category == k))).flatten).Perm L := by
  intro L
  induction L with
  | nil =>
    intro _
    simp [flatten_nil_map]
  | cons c L2 ih =>
    intro hall
    have hc : c.category ∈ cats := hall c (List.mem_cons_self _ _)
    have hall2 : ∀ x ∈ L2, x.category ∈ cats := fun x hx => hall x (List.mem_cons_of_mem _ hx)
    have hmapeq : (cats.map (fun k => (c :: L2).filter (fun x => x.category == k)))
        = cats.map (fun k => if c.category == k then c :: L2.filter (fun x => x.category == k)
            else L2.filter (fun x => x.category == k)) := by
      apply List.map_congr_left
      intro k _
      rw [List.filter_cons]
    rw [hmapeq]
    exact (join_cons_perm c _ cats hnd hc).trans ((ih hall2).cons c)

/-- Looking up a key of a tabulated association list yields its tabulated
value. -/
theorem lookup_map_mk {α : Type} (f : String → α) :
    ∀ (l : List String) (a : String), a ∈ l →
      (l.map (fun k => (k, f k))).lookup a = some (f a) := by
  intro l
  induction l with
  | nil => intro a h; simp at h
  | cons k ks ih =>
    intro a ha
    by_cases he : a = k
    · subst he
      simp [List.lookup]
    · have hmem : a ∈ ks := by
        rcases List.mem_cons.mp ha with h | h
        · exact absurd h he
        · exact h
      have hb : (a == k) = false := by simp [he]
      simp [List.lookup, hb, ih a hmem]

/-- C1 (amended): whenever every non-OTHER pattern key is among the (distinct)
category keys and OTHER is a category key, `classify_commits` returns a
mapping covering exactly the category keys whose sequences partition the input
— flattening them is a permutation of the input commits (with their category
fields set), so every commit lands in exactly one sequence, the total count is
preserved, and a commit matching no pattern lands in OTHER.  Without the key
coverage the source raises `KeyError` instead (see the counterexample). -/
theorem classify_commits_partition (m : String → String → Bool) (cats : List String)
    (pats : List (String × String)) (commits : List CommitInfo)
    (hnd : cats.Nodup)
    (hp : ∀ cp ∈ pats, cp.1 ≠ "OTHER" → cp.1 ∈ cats)
    (ho : "OTHER" ∈ cats) :
    ∃ r, classify_commits m cats pats commits = .ok r
      ∧ r.map Prod.fst = cats
      ∧ ((r.map Prod.snd).flatten).Perm (commits.map (updateCommitCat m pats))
      ∧ (r.map Prod.snd).flatten.length = commits.length
      ∧ ∀ c ∈ commits, matchFirst m pats (pyStrip c.message) = none →
          updateCommitCat m pats c ∈ ((r.lookup ("OTHER")).getD []) := by
  have hkeys0 : ((cats.map (fun k => (k, ([] : List CommitInfo)))).map Prod.fst) = cats := by
    rw [List.map_map]
    show cats.map id = cats
    exact List.map_id cats
  have hok : classify_commits m cats pats commits =
      .ok (cats.map (fun k =>
        (k, (commits.map (updateCommitCat m pats)).filter (fun c => c.category == k)))) := by
    unfold classify_commits
    rw [classifyLoop_ok m pats commits _ (by rw [hkeys0]; exact hnd)
      (by intro c _; rw [hkeys0]; exact assignCategory_mem hp ho _)]
    congr 1
    rw [List.map_map]
    apply List.map_congr_left
    intro k _
    rfl
  have hsnd : ((cats.map (fun k =>
      (k, (commits.map (updateCommitCat m pats)).filter (fun c => c.category == k)))).map
        Prod.snd)
      = cats.map (fun k => (commits.map (updateCommitCat m pats)).filter
          (fun c => c.category == k)) := by
    rw [List.map_map]
    rfl
  have hperm : (((cats.map (fun k =>
      (k, (commits.map (updateCommitCat m pats)).filter (fun c => c.category == k)))).map
        Prod.snd).flatten).Perm (commits.map (updateCommitCat m pats)) := by
    rw [hsnd]
    apply join_filter_perm cats hnd
    intro x hx
    obtain ⟨c, _, rfl⟩ := List.mem_map.mp hx
    exact assignCategory_mem hp ho _
  refine ⟨_, hok, ?_, hperm, ?_, ?_⟩
  · rw [List.map_map]
    show cats.map id = cats
    exact List.map_id cats
  · rw [hperm.length_eq, List.length_map]
  · intro c hc hnone
    rw [lookup_map_mk _ cats ("OTHER") ho]
    simp only [Option.getD_some]
    apply List.mem_filter.mpr
    refine ⟨List.mem_map_of_mem _ hc, ?_⟩
    have hcat : (updateCommitCat m pats c).category = "OTHER" := by
      show assignCategory m pats (pyStrip c.message) = "OTHER"
      unfold assignCategory
      rw [hnone]
      rfl
    simp [hcat]

/-- Witness for C1's amended statement at a covered configuration with one
matching and one unmatched commit. -/
theorem classify_commits_partition_witness :
    ∃ r, classify_commits (fun p msg => p == "f" && msg == "feat") ["FEATURE", "OTHER"]
        [("FEATURE", "f")]
        [{ hash := "h1", message := "feat" }, { hash := "h2", message := "chore" }] = .ok r
      ∧ r.map Prod.fst = ["FEATURE", "OTHER"] := by
  obtain ⟨r, h1, h2, _⟩ := classify_commits_partition (fun p msg => p == "f" && msg == "feat")
    ["FEATURE", "OTHER"] [("FEATURE", "f")]
    [{ hash := "h1", message := "feat" }, { hash := "h2", message := "chore" }]
    (by decide) (by decide) (by decide)
  exact ⟨r, h1, h2⟩

/-- Counterexample for C1 as stated: with a pattern key (FEATURE) that is not
among the category keys, classification does not return a mapping at all — the
source raises `KeyError` at `classified[category].append(commit)`. -/
theorem classify_missing_key_cex :
    classify_commits (fun _ _ => true) ["OTHER"] [("FEATURE", "p")]
      [{ hash := "h", message := "m" }] = .error ("KeyError: FEATURE") := rfl

end Changelog
